import Mathlib

/-!
# XUpdate: release selection, ZIP scan, self-replacement and progress

A shallow embedding of `src/xupdate.cpp` (class `XUpdate`) and the properties
of its update pipeline.

Conventions of the embedding

* `QString` is `String`; `QString::contains` is substring containment
  (case sensitive, the empty string is contained in every string);
  `QString::isEmpty` is equality with `""`.
* `QByteArray` and raw buffers are `List Nat`, one element per byte.
* Fixed-width integers are `Nat`/`Int` with explicit reduction modulo `2^w`.
* Calls into the environment whose result the program inspects (file open,
  rename, remove, process launch, zlib) take their result from an explicit
  record of outcomes, so that every combination of success and failure is
  a value one can quantify over.
-/

namespace XUpdate

/-! ## Release selection (`XUpdate::handleReleaseInfo`, lines 314-389) -/

/-- Substring test of `QString::contains(const QString &)`. -/
def contains (s sub : String) : Bool := decide (sub.data <:+: s.data)

/-- One element of a release's `assets` array, reduced to the two keys the
program reads (`toString()` of a missing key is the empty string). -/
structure Asset where
  name : String
  browser_download_url : String
deriving DecidableEq, Repr

/-- One element of the releases feed, reduced to the two keys the program reads. -/
structure Release where
  tag_name : String
  assets : List Asset
deriving DecidableEq, Repr

/-- Host description computed at lines 323-335: `QSysInfo::productType()`,
`QSysInfo::currentCpuArchitecture()` and the version string `ubuntuVersion`. -/
structure Host where
  osType : String
  arch : String
  ubuntuVersion : String
deriving DecidableEq, Repr

/-- Lines 328-335: `ubuntuVersion` stays empty unless `osType == "linux"`, in which
case it is the trimmed output of `lsb_release -r -s`. -/
def detectHost (osType arch lsbRelease : String) : Host :=
  { osType := osType
    arch := arch
    ubuntuVersion := if osType == "linux" then lsbRelease else "" }

/-- Lines 351-363: the if / else-if chain run on one asset; the result is the new
value of `downloadLink`. -/
def checkAsset (h : Host) (asset : Asset) (downloadLink : String) : String :=
  if h.osType == "windows" && contains asset.name "win" && contains asset.name "64" then
    asset.browser_download_url
  else if h.osType == "linux" && contains asset.name "lin"
      && contains asset.name h.ubuntuVersion then
    if (h.arch == "x86_64" && contains asset.name "x86_64") ||
       (h.arch == "arm64" && contains asset.name "arm64") then
      asset.browser_download_url
    else downloadLink
  else if h.osType == "osx" && contains asset.name "mac" then
    if (h.arch == "x86_64" && contains asset.name "x86_64") ||
       (h.arch == "arm64" && contains asset.name "arm64") then
      asset.browser_download_url
    else downloadLink
  else downloadLink

/-- Lines 347-367: the loop over the assets of one release, leaving as soon as
`downloadLink` is not empty. -/
def assetsLoop (h : Host) : List Asset → String → String
  | [], downloadLink => downloadLink
  | asset :: rest, downloadLink =>
    let link := checkAsset h asset downloadLink
    if link ≠ "" then link else assetsLoop h rest link

/-- Lines 339-371: the loop over the releases; a release whose tag differs from a
non-empty target version is skipped by `continue`. -/
def releasesLoop (h : Host) (m_targetVersion : String) : List Release → String → String
  | [], downloadLink => downloadLink
  | release :: rest, downloadLink =>
    if m_targetVersion ≠ "" ∧ release.tag_name ≠ m_targetVersion then
      releasesLoop h m_targetVersion rest downloadLink
    else
      let link := assetsLoop h release.assets downloadLink
      if link ≠ "" then link else releasesLoop h m_targetVersion rest link

/-- Body of `XUpdate::handleReleaseInfo`: the result is the URL from which the
download is started (lines 373-380), or `none` when no request is issued (reply
error, or empty `downloadLink`). -/
def handleReleaseInfo (replyNoError : Bool) (osType arch lsbRelease : String)
    (m_targetVersion : String) (releases : List Release) : Option String :=
  if replyNoError then
    let downloadLink :=
      releasesLoop (detectHost osType arch lsbRelease) m_targetVersion releases ""
    if downloadLink ≠ "" then some downloadLink else none
  else none

/-- The condition under which `checkAsset` assigns the asset's URL to
`downloadLink`: the platform predicate of the code. -/
def platformAccepts (h : Host) (assetName : String) : Bool :=
  (h.osType == "windows" && contains assetName "win" && contains assetName "64") ||
  (h.osType == "linux" && contains assetName "lin" && contains assetName h.ubuntuVersion &&
    ((h.arch == "x86_64" && contains assetName "x86_64") ||
     (h.arch == "arm64" && contains assetName "arm64"))) ||
  (h.osType == "osx" && contains assetName "mac" &&
    ((h.arch == "x86_64" && contains assetName "x86_64") ||
     (h.arch == "arm64" && contains assetName "arm64")))

/-- Operating-system families of the specification's platform table. -/
inductive OsKind where
  | Windows
  | Linux
  | MacOS
deriving DecidableEq, Repr

/-- Architectures of the specification's platform table. -/
inductive ArchKind where
  | X86_64
  | Arm64
deriving DecidableEq, Repr

/-- Architecture string (`x86_64` / `arm64`). -/
def archString : ArchKind → String
  | .X86_64 => "x86_64"
  | .Arm64 => "arm64"

/-- OS family strings as the specification lists them (windows/linux/macOS). -/
def specOsFamily : OsKind → String
  | .Windows => "windows"
  | .Linux => "linux"
  | .MacOS => "macOS"

/-- OS family strings the code compares `osType` with (lines 351, 353, 358). -/
def codeOsFamily : OsKind → String
  | .Windows => "windows"
  | .Linux => "linux"
  | .MacOS => "osx"

/-- Platform predicate as the specification tabulates it (section 4.1). -/
def specPredicate (os : OsKind) (arch : ArchKind) (distroVersion assetName : String) : Bool :=
  match os with
  | .Windows => contains assetName "win" && contains assetName "64"
  | .Linux => contains assetName "lin" && contains assetName distroVersion
      && contains assetName (archString arch)
  | .MacOS => contains assetName "mac" && contains assetName (archString arch)

/-! ## Self-replacement (`XUpdate::replace_self`, lines 95-186)

The three paths `currentExe`, `backupExe` and `tempExe` are taken to be pairwise
distinct files. An operation that reports failure leaves the file system as it
was; one that reports success has had its whole effect. -/

/-- The three files `replace_self` touches, each absent or present with a content. -/
structure FileSystem where
  currentExe : Option (List Nat)
  backupExe : Option (List Nat)
  tempExe : Option (List Nat)
deriving DecidableEq, Repr

/-- Names of the three files. -/
inductive Path where
  | currentExe
  | backupExe
  | tempExe
deriving DecidableEq, Repr

/-- Content of the file at a path. -/
def FileSystem.get (fs : FileSystem) : Path → Option (List Nat)
  | .currentExe => fs.currentExe
  | .backupExe => fs.backupExe
  | .tempExe => fs.tempExe

/-- File system with the file at a path replaced (or removed, for `none`). -/
def FileSystem.set (fs : FileSystem) (p : Path) (c : Option (List Nat)) : FileSystem :=
  match p with
  | .currentExe => { fs with currentExe := c }
  | .backupExe => { fs with backupExe := c }
  | .tempExe => { fs with tempExe := c }

/-- `QFile::remove`: succeeds only on an existing file, and only when the
environment lets it (`allowed`). -/
def removeFile (allowed : Bool) (p : Path) (fs : FileSystem) : Bool × FileSystem :=
  if allowed && (fs.get p).isSome then (true, fs.set p none) else (false, fs)

/-- `QFile::rename`: succeeds only when the source exists, the destination does
not, and the environment lets it (`allowed`). -/
def renameFile (allowed : Bool) (src dst : Path) (fs : FileSystem) : Bool × FileSystem :=
  if allowed && (fs.get src).isSome && (fs.get dst).isNone then
    (true, (fs.set dst (fs.get src)).set src none)
  else (false, fs)

/-- Outcome of every environment call of `replace_self`, in the order of the source. -/
structure ReplaceEnv where
  /-- Result of `tempFile.open(QIODevice::WriteOnly)` (line 104). -/
  tempOpenOk : Bool
  /-- Value returned by `tempFile.write` (line 108); `-1` on error. -/
  bytesWritten : Int
  /-- Whether `QFile::remove(tempExe)` may succeed (lines 113, 122, 129, 138). -/
  removeTempOk : Bool
  /-- Whether `backupFile.remove()` may succeed (line 120). -/
  removeBackupOk : Bool
  /-- Whether `currentFile.rename(backupExe)` may succeed (line 127). -/
  backupRenameOk : Bool
  /-- Whether `tempFile.rename(currentExe)` may succeed (line 134). -/
  replaceRenameOk : Bool
  /-- Whether the rollback `QFile::rename(backupExe, currentExe)` may succeed (line 137). -/
  rollbackRenameOk : Bool
  /-- Result of `process->startDetached(&pid)` (line 147). -/
  launchOk : Bool
  /-- Result of `CreateProcessW` for the deferred deletion of the backup (line 162). -/
  cleanupOk : Bool
deriving DecidableEq, Repr

/-- What `replace_self` leaves behind: the returned `bool`, the file system, whether
the new executable was launched, whether the cleanup process was started, whether
`QCoreApplication::quit()` was called, and the `qDebug` lines (fixed part only). -/
structure ReplaceResult where
  ok : Bool
  fs : FileSystem
  launched : Bool
  cleanupStarted : Bool
  quitCalled : Bool
  log : List String
deriving DecidableEq, Repr

/-- Body of `XUpdate::replace_self(newImageData, newImageSize)`; `newImage` is the
buffer of `newImageSize` bytes. -/
def replace_self (env : ReplaceEnv) (fs : FileSystem) (newImage : List Nat) : ReplaceResult :=
  -- lines 103-107
  if !env.tempOpenOk then
    { ok := false, fs := fs, launched := false, cleanupStarted := false, quitCalled := false,
      log := ["Failed to open temp file for writing:"] }
  else
    -- lines 108-109: open truncates, write stores the bytes it reports written
    let fs1 := fs.set .tempExe (some (newImage.take env.bytesWritten.toNat))
    -- lines 111-115
    if env.bytesWritten ≠ (newImage.length : Int) then
      { ok := false, fs := (removeFile env.removeTempOk .tempExe fs1).2, launched := false,
        cleanupStarted := false, quitCalled := false,
        log := ["Failed to write complete image data to temp file"] }
    else
      -- lines 118-125
      let stale := removeFile env.removeBackupOk .backupExe fs1
      if (fs1.get .backupExe).isSome && !stale.1 then
        { ok := false, fs := (removeFile env.removeTempOk .tempExe fs1).2, launched := false,
          cleanupStarted := false, quitCalled := false,
          log := ["Failed to remove existing backup file:"] }
      else
        let fs2 := if (fs1.get .backupExe).isSome then stale.2 else fs1
        -- lines 126-131
        let backup := renameFile env.backupRenameOk .currentExe .backupExe fs2
        if !backup.1 then
          { ok := false, fs := (removeFile env.removeTempOk .tempExe backup.2).2,
            launched := false, cleanupStarted := false, quitCalled := false,
            log := ["Failed to backup current executable:"] }
        else
          -- lines 134-140
          let swap := renameFile env.replaceRenameOk .tempExe .currentExe backup.2
          if !swap.1 then
            let rolled := (renameFile env.rollbackRenameOk .backupExe .currentExe swap.2).2
            { ok := false, fs := (removeFile env.removeTempOk .tempExe rolled).2,
              launched := false, cleanupStarted := false, quitCalled := false,
              log := ["Failed to replace current executable:"] }
          else
            -- lines 143-152
            if !env.launchOk then
              { ok := false, fs := swap.2, launched := false, cleanupStarted := false,
                quitCalled := false, log := ["Failed to relaunch updated executable:"] }
            else
              -- lines 153-185: the backup is deleted later by the detached command,
              -- not before `replace_self` returns
              { ok := true, fs := swap.2, launched := true, cleanupStarted := env.cleanupOk,
                quitCalled := true,
                log := ["New executable launched with PID:", "Cleanup command:",
                  (if env.cleanupOk then "Cleanup process started for:"
                   else "Failed to start cleanup process for backup deletion. Error:"),
                  (if (swap.2.get .backupExe).isSome then "Backup file still exists before exit:"
                   else "Backup file already deleted:")] }

/-! ## ZIP scan (`XUpdate::fileDownloaded`, lines 217-310) -/

/-- A `QFile` opened read-only: its content and the current position. -/
structure QFile where
  data : List Nat
  pos : Nat
deriving DecidableEq, Repr

/-- `QFile::atEnd`. -/
def QFile.atEnd (f : QFile) : Bool := decide (f.data.length ≤ f.pos)

/-- `QFile::read(maxSize)`: at most `maxSize` bytes from the current position, which
advances by the number of bytes read. -/
def QFile.read (f : QFile) (maxSize : Nat) : List Nat × QFile :=
  let bytes := (f.data.drop f.pos).take maxSize
  (bytes, { f with pos := f.pos + bytes.length })

/-- `QFile::seek`. -/
def QFile.seek (f : QFile) (p : Nat) : QFile := { f with pos := p }

/-- The packed 30-byte `struct ZipLocalFileHeader` (lines 225-239). -/
structure ZipLocalFileHeader where
  signature : Nat
  version_needed : Nat
  flags : Nat
  compression_method : Nat
  mod_time : Nat
  mod_date : Nat
  crc32 : Nat
  compressed_size : Nat
  uncompressed_size : Nat
  file_name_length : Nat
  extra_field_length : Nat
deriving DecidableEq, Repr

/-- Size of the packed header, `sizeof(header)`. -/
def headerSize : Nat := 30

/-- Little-endian `uint16_t` at an offset of a byte buffer. -/
def le16 (bs : List Nat) (off : Nat) : Nat :=
  bs.getD off 0 % 256 + 256 * (bs.getD (off + 1) 0 % 256)

/-- Little-endian `uint32_t` at an offset of a byte buffer. -/
def le32 (bs : List Nat) (off : Nat) : Nat :=
  le16 bs off + 65536 * le16 bs (off + 2)

/-- The header as the `reinterpret_cast` read of line 244 fills it on a
little-endian host. -/
def decodeHeader (raw : List Nat) : ZipLocalFileHeader :=
  { signature := le32 raw 0
    version_needed := le16 raw 4
    flags := le16 raw 6
    compression_method := le16 raw 8
    mod_time := le16 raw 10
    mod_date := le16 raw 12
    crc32 := le32 raw 14
    compressed_size := le32 raw 18
    uncompressed_size := le32 raw 22
    file_name_length := le16 raw 26
    extra_field_length := le16 raw 28 }

/-- Name of the entry looked for (line 214). -/
def exeName : String := "die.exe"

/-- How the `while` loop of lines 242-302 is left. -/
inductive LoopExit where
  /-- The loop condition `!zip.atEnd()` became false. -/
  | atEnd
  /-- Fewer than `sizeof(header)` bytes were read (line 245). -/
  | shortRead
  /-- Signature mismatch (lines 247-250). -/
  | invalidSignature
  /-- The test of line 256 succeeded; carries `compressedData` (line 257) and
  `header.uncompressed_size`. Lines 259-298 all end in `break`. -/
  | matched (compressedData : List Nat) (uncompressed_size : Nat)
deriving DecidableEq, Repr

/-- The `while` loop of lines 242-302, up to the point where it is left. The result
lists the positions at which a complete header was read, in order, and the way the
loop was left; `none` only when `fuel` iterations did not suffice. `fromUtf8` is
`QString::fromUtf8`. -/
def zipLoop (fromUtf8 : List Nat → String) : Nat → QFile → Option (List Nat × LoopExit)
  | 0, _ => none
  | fuel + 1, zip =>
    if zip.atEnd then some ([], .atEnd)
    else
      let start := zip.pos
      let rd := zip.read headerSize
      if rd.1.length ≠ headerSize then some ([], .shortRead)
      else
        let header := decodeHeader rd.1
        if header.signature ≠ 0x04034b50 then some ([start], .invalidSignature)
        else
          let nm := rd.2.read header.file_name_length
          let fileName := fromUtf8 nm.1
          let zip3 := nm.2.seek (nm.2.pos + header.extra_field_length)
          if fileName = exeName ∧ header.compression_method = 8 then
            some ([start], .matched (zip3.read header.compressed_size).1 header.uncompressed_size)
          else
            (zipLoop fromUtf8 fuel (zip3.seek (zip3.pos + header.compressed_size))).map
              (fun r => (start :: r.1, r.2))

/-- Library calls of the extraction step. -/
structure ZipEnv where
  /-- `QString::fromUtf8` on the bytes of an entry name. -/
  fromUtf8 : List Nat → String
  /-- Whether `inflateInit2(&strm, -MAX_WBITS)` returns `Z_OK`. -/
  inflateInit2Ok : Bool
  /-- `inflate(&strm, Z_FINISH)` on the input bytes with the given output capacity:
  `some out` when it returns `Z_STREAM_END`, `out` being the `total_out` bytes
  produced; `none` otherwise. -/
  inflate : List Nat → Nat → Option (List Nat)
  /-- Result of `outFile.open(QIODevice::WriteOnly)` (line 280). -/
  outOpenOk : Bool
  /-- Whether the final `QFile::remove(tempExePath)` may succeed (lines 293, 297). -/
  removeTempExeOk : Bool

/-- Observable outcome of the scan part of `fileDownloaded`. -/
structure ScanOutcome where
  /-- Positions at which a complete local file header was read. -/
  headersRead : List Nat
  /-- The `z_stream` input and output capacity set up at lines 259-264. -/
  stream : Option (List Nat × Nat)
  /-- Whether `inflate` was called (line 271). -/
  inflateCalled : Bool
  /-- Final value of `foundExe`. -/
  foundExe : Bool
  /-- Result of `replace_self` when it was invoked (line 291). -/
  replaced : Option ReplaceResult
  /-- File system after the function. -/
  fs : FileSystem
  /-- The `qDebug` lines (fixed part only). -/
  log : List String
deriving DecidableEq, Repr

/-- Lines 304-308, run after the loop whichever way it was left. -/
def afterLoop (foundExe : Bool) : List String :=
  if !foundExe then ["Executable not found in ZIP archive."] else []

/-- Lines 257-298 for a matched entry, followed by lines 304-308. -/
def extractAndReplace (env : ZipEnv) (renv : ReplaceEnv) (fs : FileSystem)
    (headers : List Nat) (compressedData : List Nat) (uncompressed_size : Nat) : ScanOutcome :=
  if !env.inflateInit2Ok then
    { headersRead := headers, stream := some (compressedData, uncompressed_size),
      inflateCalled := false, foundExe := false, replaced := none, fs := fs,
      log := ["inflateInit2 failed"] ++ afterLoop false }
  else
    match env.inflate compressedData uncompressed_size with
    | none =>
      { headersRead := headers, stream := some (compressedData, uncompressed_size),
        inflateCalled := true, foundExe := false, replaced := none, fs := fs,
        log := ["inflate failed:"] ++ afterLoop false }
    | some image =>
      if !env.outOpenOk then
        { headersRead := headers, stream := some (compressedData, uncompressed_size),
          inflateCalled := true, foundExe := false, replaced := none, fs := fs,
          log := ["Failed to write temp EXE:"] ++ afterLoop false }
      else
        -- lines 285-288: `tempExePath` is the same file as `tempExe` of `replace_self`
        let fs1 := fs.set .tempExe (some image)
        let r := replace_self renv fs1 image
        { headersRead := headers, stream := some (compressedData, uncompressed_size),
          inflateCalled := true, foundExe := true, replaced := some r,
          fs := (removeFile env.removeTempExeOk .tempExe r.fs).2,
          log := ["Extracted"] ++ r.log ++
            (if !r.ok then ["Self-update failed"] else []) ++ afterLoop true }

/-- Lines 241-308 of `XUpdate::fileDownloaded`, on the content of the archive file
opened at line 218. The loop is given one unit of fuel per byte plus one. -/
def fileDownloaded (env : ZipEnv) (renv : ReplaceEnv) (fs : FileSystem)
    (zipData : List Nat) : Option ScanOutcome :=
  (zipLoop env.fromUtf8 (zipData.length + 1) { data := zipData, pos := 0 }).map fun r =>
    match r.2 with
    | .matched compressedData uncompressed_size =>
      extractAndReplace env renv fs r.1 compressedData uncompressed_size
    | .invalidSignature =>
      { headersRead := r.1, stream := none, inflateCalled := false, foundExe := false,
        replaced := none, fs := fs, log := ["Invalid ZIP signature."] ++ afterLoop false }
    | _ =>
      { headersRead := r.1, stream := none, inflateCalled := false, foundExe := false,
        replaced := none, fs := fs, log := afterLoop false }

/-! ## Progress (`XUpdate::updateDownloadProgress`, lines 77-92) -/

/-- Value of a 64-bit pattern read as `qint64` (two's complement). -/
def wrapInt64 (x : Int) : Int :=
  (x + 2 ^ 63) % 2 ^ 64 - 2 ^ 63

/-- Value of a 32-bit pattern read as `int` (two's complement). -/
def wrapInt32 (x : Int) : Int :=
  (x + 2 ^ 31) % 2 ^ 32 - 2 ^ 31

/-- Line 80: `static_cast<int>((bytesReceived * 100) / bytesTotal)`, the product
taken in 64 bits, the quotient truncated toward zero. -/
def progressValue (bytesReceived bytesTotal : Int) : Int :=
  wrapInt32 (Int.tdiv (wrapInt64 (bytesReceived * 100)) bytesTotal)

/-- Body of `XUpdate::updateDownloadProgress`: the value passed to
`ui->progressBar->setValue`, or `none` when nothing is set. -/
def updateDownloadProgress (bytesReceived bytesTotal : Int) : Option Int :=
  if bytesTotal > 0 then some (progressValue bytesReceived bytesTotal) else none

/-! ## Archives built from well-formed entries -/

/-- A local-file-header entry: header fields, name, extra field and data. -/
structure ZipEntry where
  version_needed : Nat
  flags : Nat
  compression_method : Nat
  mod_time : Nat
  mod_date : Nat
  crc32 : Nat
  uncompressed_size : Nat
  name : List Nat
  extra : List Nat
  data : List Nat
deriving DecidableEq, Repr

/-- The fields the scan reads fit their width. -/
def ZipEntry.WellFormed (e : ZipEntry) : Prop :=
  e.compression_method < 2 ^ 16 ∧ e.uncompressed_size < 2 ^ 32 ∧
  e.name.length < 2 ^ 16 ∧ e.extra.length < 2 ^ 16 ∧ e.data.length < 2 ^ 32

instance (e : ZipEntry) : Decidable e.WellFormed := by
  unfold ZipEntry.WellFormed; infer_instance

/-- Two bytes, little endian. -/
def bytes16 (n : Nat) : List Nat := [n % 256, n / 256 % 256]

/-- Four bytes, little endian. -/
def bytes32 (n : Nat) : List Nat :=
  [n % 256, n / 256 % 256, n / 65536 % 256, n / 16777216 % 256]

/-- The 30 header bytes of an entry, with the local-file-header signature. -/
def ZipEntry.headerBytes (e : ZipEntry) : List Nat :=
  bytes32 0x04034b50 ++ bytes16 e.version_needed ++ bytes16 e.flags ++
  bytes16 e.compression_method ++ bytes16 e.mod_time ++ bytes16 e.mod_date ++
  bytes32 e.crc32 ++ bytes32 e.data.length ++ bytes32 e.uncompressed_size ++
  bytes16 e.name.length ++ bytes16 e.extra.length

/-- An entry as it lies in the archive: header, name, extra field, data. -/
def ZipEntry.encode (e : ZipEntry) : List Nat :=
  e.headerBytes ++ (e.name ++ (e.extra ++ e.data))

/-- Number of bytes an entry occupies. -/
def ZipEntry.size (e : ZipEntry) : Nat :=
  headerSize + e.name.length + e.extra.length + e.data.length

/-- Concatenation of entries. -/
def encodeArchive : List ZipEntry → List Nat
  | [] => []
  | e :: es => e.encode ++ encodeArchive es

/-- Offsets of the entries of an archive that starts at `start`. -/
def entryOffsets (start : Nat) : List ZipEntry → List Nat
  | [] => []
  | e :: es => start :: entryOffsets (start + e.size) es

/-- The test of line 256 on an entry. -/
def ZipEntry.Matches (fromUtf8 : List Nat → String) (e : ZipEntry) : Prop :=
  fromUtf8 e.name = exeName ∧ e.compression_method = 8

instance (fromUtf8 : List Nat → String) (e : ZipEntry) : Decidable (e.Matches fromUtf8) := by
  unfold ZipEntry.Matches; infer_instance

/-- Bytes of an ASCII string, used for concrete archives. -/
def asciiBytes (s : String) : List Nat := s.data.map Char.toNat

/-- A decoder for concrete archives: every byte is taken as one character. It agrees
with `QString::fromUtf8` on ASCII names. -/
def latin1 (bs : List Nat) : String := String.mk (bs.map Char.ofNat)

/-! ## Reference selection, in the words of the specification -/

/-- Releases that pass the tag filter: all of them when the target version is
empty, otherwise those whose tag equals it. -/
def passesTagFilter (m_targetVersion : String) (release : Release) : Bool :=
  decide (m_targetVersion = "") || decide (release.tag_name = m_targetVersion)

/-- Assets in feed order over the releases that pass the tag filter, then in asset
order within a release. -/
def candidateAssets (m_targetVersion : String) (releases : List Release) : List Asset :=
  (releases.filter (passesTagFilter m_targetVersion)).flatMap (fun r => r.assets)

/-- The first asset, in candidate order, whose name satisfies the platform
predicate of the code. -/
def firstAccepted (h : Host) (m_targetVersion : String) (releases : List Release) :
    Option Asset :=
  (candidateAssets m_targetVersion releases).find? (fun a => platformAccepts h a.name)

/-- The first asset, in candidate order, whose name satisfies the platform
predicate of the code and whose `browser_download_url` is not empty. -/
def firstAcceptedWithUrl (h : Host) (m_targetVersion : String) (releases : List Release) :
    Option Asset :=
  (candidateAssets m_targetVersion releases).find?
    (fun a => platformAccepts h a.name && decide (a.browser_download_url ≠ ""))

/-! ## Concrete inputs -/

/-- A feed whose first Windows asset has no download URL. -/
def feedEmptyUrlFirst : List Release :=
  [{ tag_name := "v1",
     assets := [{ name := "die_win64_portable.zip", browser_download_url := "" },
                { name := "die_win64_setup.zip", browser_download_url := "https://b" }] }]

/-- A feed whose only Windows asset has no download URL. -/
def feedEmptyUrlOnly : List Release :=
  [{ tag_name := "v1",
     assets := [{ name := "die_win64_portable.zip", browser_download_url := "" }] }]

/-- A feed with two tagged releases. -/
def feedTwoTags : List Release :=
  [{ tag_name := "3.09",
     assets := [{ name := "die_lin64_22.04_x86_64.deb", browser_download_url := "https://l" },
                { name := "die_win64_portable.zip", browser_download_url := "https://w9" }] },
   { tag_name := "3.10",
     assets := [{ name := "die_win64_portable.zip", browser_download_url := "https://w10" }] }]

/-- File system used in the concrete runs: the running executable `[1]`, no backup,
no temporary file. -/
def fsPlain : FileSystem := { currentExe := some [1], backupExe := none, tempExe := none }

/-- Environment in which every call succeeds for a two-byte image. -/
def envAllOk : ReplaceEnv :=
  { tempOpenOk := true, bytesWritten := 2, removeTempOk := true, removeBackupOk := true,
    backupRenameOk := true, replaceRenameOk := true, rollbackRenameOk := true,
    launchOk := true, cleanupOk := true }

/-- A feed with one macOS asset. -/
def feedMac : List Release :=
  [{ tag_name := "3.10",
     assets := [{ name := "die_mac_portable_x86_64.dmg", browser_download_url := "https://m" }] }]

/-- Library behaviour for the concrete runs: names decoded byte by byte, every call
succeeding, and a stand-in decoder that returns its input. -/
def envZipOk : ZipEnv :=
  { fromUtf8 := latin1, inflateInit2Ok := true, inflate := fun c _ => some c,
    outOpenOk := true, removeTempExeOk := true }

/-- An entry named `die.exe` stored without compression (method 0). -/
def storedTarget : ZipEntry :=
  { version_needed := 20, flags := 0, compression_method := 0, mod_time := 0, mod_date := 0,
    crc32 := 0, uncompressed_size := 3, name := asciiBytes "die.exe", extra := [],
    data := [1, 2, 3] }

/-- An entry named `die.exe` with compression method 8. -/
def deflateTarget : ZipEntry :=
  { version_needed := 20, flags := 0, compression_method := 8, mod_time := 0, mod_date := 0,
    crc32 := 0, uncompressed_size := 5, name := asciiBytes "die.exe", extra := [9],
    data := [7, 7] }

/-- An entry with another name, of the same size as `storedTarget`. -/
def otherEntry : ZipEntry :=
  { version_needed := 20, flags := 0, compression_method := 0, mod_time := 0, mod_date := 0,
    crc32 := 0, uncompressed_size := 3, name := asciiBytes "die.txt", extra := [],
    data := [1, 2, 3] }

/-- Thirty bytes that do not start with the local-file-header signature, followed by
a complete deflate entry named `die.exe`. -/
def corruptThenTarget : List Nat :=
  List.replicate 30 0 ++ deflateTarget.encode

/-! ## Release selection: properties -/

theorem checkAsset_eq (h : Host) (asset : Asset) (downloadLink : String) :
    checkAsset h asset downloadLink =
      if platformAccepts h asset.name then asset.browser_download_url else downloadLink := by
  unfold checkAsset platformAccepts
  generalize (h.osType == "windows" && contains asset.name "win" && contains asset.name "64") = w
  generalize (h.osType == "linux" && contains asset.name "lin"
    && contains asset.name h.ubuntuVersion) = l
  generalize (h.osType == "osx" && contains asset.name "mac") = o
  generalize ((h.arch == "x86_64" && contains asset.name "x86_64") ||
    (h.arch == "arm64" && contains asset.name "arm64")) = a
  cases w <;> cases l <;> cases o <;> cases a <;> rfl

/-- The asset loop entered with an empty link returns the URL of the first asset that
is accepted and has a non-empty URL, or the empty string. -/
theorem assetsLoop_eq (h : Host) (assets : List Asset) :
    assetsLoop h assets "" =
      ((assets.find? (fun a => platformAccepts h a.name &&
          decide (a.browser_download_url ≠ ""))).map (fun a => a.browser_download_url)).getD "" := by
  induction assets with
  | nil => rfl
  | cons a rest ih =>
    simp only [assetsLoop, checkAsset_eq, List.find?_cons]
    by_cases hp : platformAccepts h a.name = true
    · by_cases hu : a.browser_download_url = ""
      · simp [hp, hu, ih]
      · simp [hp, hu]
    · simp [hp, ih]

/-- The release loop entered with an empty link returns the URL of the first candidate
asset that is accepted and has a non-empty URL, or the empty string. -/
theorem releasesLoop_eq (h : Host) (tv : String) (releases : List Release) :
    releasesLoop h tv releases "" =
      ((firstAcceptedWithUrl h tv releases).map (fun a => a.browser_download_url)).getD "" := by
  induction releases with
  | nil => rfl
  | cons r rest ih =>
    unfold firstAcceptedWithUrl candidateAssets at ih ⊢
    simp only [releasesLoop]
    by_cases hskip : tv ≠ "" ∧ r.tag_name ≠ tv
    · have hf : passesTagFilter tv r = false := by
        simp [passesTagFilter, hskip.1, hskip.2]
      simp [hskip, hf, ih, List.filter_cons]
    · have hf : passesTagFilter tv r = true := by
        simp only [passesTagFilter, Bool.or_eq_true, decide_eq_true_eq]
        by_cases h1 : tv = ""
        · exact Or.inl h1
        · right
          by_contra h2
          exact hskip ⟨h1, h2⟩
      rw [if_neg hskip, assetsLoop_eq]
      simp only [List.filter_cons, hf, if_true, List.flatMap_cons, List.find?_append]
      cases hfa : r.assets.find? (fun a => platformAccepts h a.name &&
          decide (a.browser_download_url ≠ "")) with
      | none => simp [ih]
      | some a =>
        have := List.find?_some hfa
        simp at this
        simp [this.2]

/-- C1, as stated, fails: an accepted asset whose `browser_download_url` is empty is
passed over. In the first feed the first accepted asset has the empty URL and the
URL resolved is that of the second accepted asset; in the second feed an accepted
asset exists and no URL is resolved. -/
theorem handleReleaseInfo_not_first_accepted :
    (firstAccepted (detectHost "windows" "x86_64" "") "" feedEmptyUrlFirst).map
        (fun a => a.browser_download_url) = some "" ∧
      handleReleaseInfo true "windows" "x86_64" "" "" feedEmptyUrlFirst = some "https://b" ∧
      (firstAccepted (detectHost "windows" "x86_64" "") "" feedEmptyUrlOnly).isSome = true ∧
      handleReleaseInfo true "windows" "x86_64" "" "" feedEmptyUrlOnly = none := by
  decide

theorem selection_eq_firstAcceptedWithUrl (osType arch lsbRelease tv : String)
    (releases : List Release) :
    handleReleaseInfo true osType arch lsbRelease tv releases =
      (firstAcceptedWithUrl (detectHost osType arch lsbRelease) tv releases).map
        (fun a => a.browser_download_url) := by
  simp only [handleReleaseInfo, if_true, releasesLoop_eq]
  cases hf : firstAcceptedWithUrl (detectHost osType arch lsbRelease) tv releases with
  | none => simp
  | some a =>
    have := List.find?_some hf
    simp at this
    simp [this.2]

/-- C1, amended: for every release list, target version and host, the URL resolved by
`handleReleaseInfo` is the `browser_download_url` of the first asset, in feed order
over the releases that pass the tag filter and then in asset order, whose name
satisfies the platform predicate and whose URL is not empty; and no URL is resolved
exactly when there is no such asset. -/
theorem handleReleaseInfo_first_match (osType arch lsbRelease m_targetVersion : String)
    (releases : List Release) :
    handleReleaseInfo true osType arch lsbRelease m_targetVersion releases =
        (firstAcceptedWithUrl (detectHost osType arch lsbRelease) m_targetVersion releases).map
          (fun a => a.browser_download_url) ∧
      (handleReleaseInfo true osType arch lsbRelease m_targetVersion releases = none ↔
        ∀ a ∈ candidateAssets m_targetVersion releases,
          ¬ (platformAccepts (detectHost osType arch lsbRelease) a.name = true ∧
              a.browser_download_url ≠ "")) := by
  have key := selection_eq_firstAcceptedWithUrl osType arch lsbRelease m_targetVersion releases
  refine ⟨key, ?_⟩
  rw [key]
  simp [firstAcceptedWithUrl, List.find?_eq_none]

/-- C7, as stated, fails for macOS: with the OS family given as `macOS`, as the
specification names it, the code accepts no asset at all (it compares `osType`
with `osx`), although the tabulated predicate accepts the asset. -/
theorem platformAccepts_macOS_mismatch :
    specPredicate .MacOS .X86_64 "" "die_mac_portable_x86_64.dmg" = true ∧
      platformAccepts (detectHost (specOsFamily .MacOS) (archString .X86_64) "")
        "die_mac_portable_x86_64.dmg" = false ∧
      handleReleaseInfo true (specOsFamily .MacOS) (archString .X86_64) "" "" feedMac = none ∧
      handleReleaseInfo true "osx" (archString .X86_64) "" "" feedMac = some "https://m" := by
  decide

/-- C7, amended: with the OS family given as `windows`, `linux` or `osx` (the string
the code compares with for macOS) and the architecture as `x86_64` or `arm64`, an
asset name is accepted by the code if and only if the tabulated predicate accepts
it; and every URL that `handleReleaseInfo` resolves is the URL of a candidate asset
whose name the tabulated predicate accepts. -/
theorem platformAccepts_iff_specPredicate :
    (∀ (os : OsKind) (arch : ArchKind) (distroVersion assetName : String),
      platformAccepts (detectHost (codeOsFamily os) (archString arch) distroVersion) assetName
        = specPredicate os arch distroVersion assetName) ∧
    (∀ (os : OsKind) (arch : ArchKind) (distroVersion m_targetVersion url : String)
        (replyNoError : Bool) (releases : List Release),
      handleReleaseInfo replyNoError (codeOsFamily os) (archString arch) distroVersion
          m_targetVersion releases = some url →
        ∃ a ∈ candidateAssets m_targetVersion releases,
          a.browser_download_url = url ∧
            specPredicate os arch distroVersion a.name = true) := by
  have h1 : ∀ (os : OsKind) (arch : ArchKind) (distroVersion assetName : String),
      platformAccepts (detectHost (codeOsFamily os) (archString arch) distroVersion) assetName
        = specPredicate os arch distroVersion assetName := by
    intro os arch distroVersion assetName
    cases os <;> cases arch <;>
      simp [platformAccepts, detectHost, codeOsFamily, archString, specPredicate]
  refine ⟨h1, ?_⟩
  intro os arch distroVersion tv url replyNoError releases hsel
  cases replyNoError with
  | false => simp [handleReleaseInfo] at hsel
  | true =>
    rw [(selection_eq_firstAcceptedWithUrl _ _ _ _ _)] at hsel
    cases hf : firstAcceptedWithUrl (detectHost (codeOsFamily os) (archString arch)
        distroVersion) tv releases with
    | none => simp [hf] at hsel
    | some a =>
      simp [hf] at hsel
      have hmem := List.mem_of_find?_eq_some hf
      have hp := List.find?_some hf
      simp at hp
      exact ⟨a, hmem, hsel, by rw [← h1]; exact hp.1⟩

/-- Concrete instance: a Linux x86_64 host picks the
matching asset of a two-release feed. -/
theorem platformAccepts_iff_specPredicate_witness :
    ∃ a ∈ candidateAssets "" feedTwoTags,
      a.browser_download_url = "https://l" ∧
        specPredicate .Linux .X86_64 "22.04" a.name = true :=
  platformAccepts_iff_specPredicate.2 .Linux .X86_64 "22.04" "" "https://l" true feedTwoTags
    (by decide)

theorem releasesLoop_unknown_tag (h : Host) (tv : String) (releases : List Release)
    (htv : tv ≠ "") (hno : ∀ r ∈ releases, r.tag_name ≠ tv) :
    releasesLoop h tv releases "" = "" := by
  induction releases with
  | nil => rfl
  | cons r rest ih =>
    have hr : r.tag_name ≠ tv := hno r (List.mem_cons_self _ _)
    simp only [releasesLoop, if_pos (And.intro htv hr)]
    exact ih (fun x hx => hno x (List.mem_cons_of_mem _ hx))

/-- C8: when the target version is a non-empty tag that equals the `tag_name` of no
release in the list, `handleReleaseInfo` resolves no URL and starts no download,
whatever the host and whatever assets the releases hold. -/
theorem handleReleaseInfo_unknown_tag (replyNoError : Bool)
    (osType arch lsbRelease m_targetVersion : String) (releases : List Release)
    (htv : m_targetVersion ≠ "")
    (hno : ∀ r ∈ releases, r.tag_name ≠ m_targetVersion) :
    handleReleaseInfo replyNoError osType arch lsbRelease m_targetVersion releases = none := by
  unfold handleReleaseInfo
  rw [releasesLoop_unknown_tag _ _ _ htv hno]
  simp

/-- Concrete instance: tag `4.00` is not in the feed, whose
releases do hold Windows assets. -/
theorem handleReleaseInfo_unknown_tag_witness :
    handleReleaseInfo true "windows" "x86_64" "" "4.00" feedTwoTags = none ∧
      handleReleaseInfo true "windows" "x86_64" "" "" feedTwoTags = some "https://w9" :=
  ⟨handleReleaseInfo_unknown_tag true "windows" "x86_64" "" "4.00" feedTwoTags
    (by decide) (by decide), by decide⟩

/-! ## ZIP scan: properties -/

theorem headerBytes_length (e : ZipEntry) : e.headerBytes.length = 30 := by
  simp [ZipEntry.headerBytes, bytes16, bytes32]

theorem encode_length (e : ZipEntry) : e.encode.length = e.size := by
  simp [ZipEntry.encode, ZipEntry.size, headerBytes_length, headerSize]
  omega

theorem le16_bytes16 (p r : List Nat) (n k : Nat) (hk : p.length = k) :
    le16 (p ++ (bytes16 n ++ r)) k = n % 65536 := by
  subst hk
  simp only [le16, bytes16, List.getD_eq_getElem?_getD]
  rw [List.getElem?_append_right (le_refl _), List.getElem?_append_right (Nat.le_succ _)]
  simp
  omega

theorem le32_bytes32 (p r : List Nat) (n k : Nat) (hk : p.length = k) :
    le32 (p ++ (bytes32 n ++ r)) k = n % 4294967296 := by
  subst hk
  simp only [le32, le16, bytes32, List.getD_eq_getElem?_getD]
  rw [List.getElem?_append_right (le_refl _), List.getElem?_append_right (Nat.le_succ _),
    List.getElem?_append_right (by omega : p.length ≤ p.length + 2),
    List.getElem?_append_right (by omega : p.length ≤ p.length + 2 + 1)]
  have h3 : p.length + 2 + 1 - p.length = 3 := by omega
  have h1 : p.length + 1 - p.length = 1 := by omega
  have h2 : p.length + 2 - p.length = 2 := by omega
  simp only [h1, h2, h3, Nat.sub_self]
  simp
  omega

theorem headerBytes_eq (e : ZipEntry) :
    e.headerBytes = bytes32 0x04034b50 ++ (bytes16 e.version_needed ++ (bytes16 e.flags ++
    (bytes16 e.compression_method ++ (bytes16 e.mod_time ++ (bytes16 e.mod_date ++
    (bytes32 e.crc32 ++ (bytes32 e.data.length ++ (bytes32 e.uncompressed_size ++
    (bytes16 e.name.length ++ (bytes16 e.extra.length ++ [])))))))))) := by
  simp only [ZipEntry.headerBytes, List.append_assoc, List.append_nil]

theorem le32_signature (r : List Nat) : le32 (bytes32 0x04034b50 ++ r) 0 = 0x04034b50 := by
  have h := le32_bytes32 [] r 0x04034b50 0 rfl
  simp only [List.nil_append] at h
  exact h.trans (by norm_num)

theorem decodeHeader_signature (e : ZipEntry) :
    (decodeHeader e.headerBytes).signature = 0x04034b50 := by
  show le32 e.headerBytes 0 = _
  rw [headerBytes_eq]
  exact le32_signature _

theorem decodeHeader_compression_method (e : ZipEntry) (hb : e.compression_method < 2 ^ 16) :
    (decodeHeader e.headerBytes).compression_method = e.compression_method := by
  show le16 e.headerBytes 8 = _
  rw [headerBytes_eq]
  have h := le16_bytes16 (bytes32 0x04034b50 ++ (bytes16 e.version_needed ++ bytes16 e.flags))
    (bytes16 e.mod_time ++ (bytes16 e.mod_date ++
    (bytes32 e.crc32 ++ (bytes32 e.data.length ++ (bytes32 e.uncompressed_size ++
    (bytes16 e.name.length ++ (bytes16 e.extra.length ++ []))))))) e.compression_method 8
    (by simp [bytes16, bytes32])
  simp only [List.append_assoc] at h
  rw [h]
  omega

theorem decodeHeader_compressed_size (e : ZipEntry) (hb : e.data.length < 2 ^ 32) :
    (decodeHeader e.headerBytes).compressed_size = e.data.length := by
  show le32 e.headerBytes 18 = _
  rw [headerBytes_eq]
  have h := le32_bytes32 (bytes32 0x04034b50 ++ (bytes16 e.version_needed ++ (bytes16 e.flags ++
    (bytes16 e.compression_method ++ (bytes16 e.mod_time ++ (bytes16 e.mod_date ++
    bytes32 e.crc32))))))
    (bytes32 e.uncompressed_size ++ (bytes16 e.name.length ++ (bytes16 e.extra.length ++ [])))
    e.data.length 18 (by simp [bytes16, bytes32])
  simp only [List.append_assoc] at h
  rw [h]
  omega

theorem decodeHeader_uncompressed_size (e : ZipEntry) (hb : e.uncompressed_size < 2 ^ 32) :
    (decodeHeader e.headerBytes).uncompressed_size = e.uncompressed_size := by
  show le32 e.headerBytes 22 = _
  rw [headerBytes_eq]
  have h := le32_bytes32 (bytes32 0x04034b50 ++ (bytes16 e.version_needed ++ (bytes16 e.flags ++
    (bytes16 e.compression_method ++ (bytes16 e.mod_time ++ (bytes16 e.mod_date ++
    (bytes32 e.crc32 ++ bytes32 e.data.length)))))))
    (bytes16 e.name.length ++ (bytes16 e.extra.length ++ []))
    e.uncompressed_size 22 (by simp [bytes16, bytes32])
  simp only [List.append_assoc] at h
  rw [h]
  omega

theorem decodeHeader_file_name_length (e : ZipEntry) (hb : e.name.length < 2 ^ 16) :
    (decodeHeader e.headerBytes).file_name_length = e.name.length := by
  show le16 e.headerBytes 26 = _
  rw [headerBytes_eq]
  have h := le16_bytes16 (bytes32 0x04034b50 ++ (bytes16 e.version_needed ++ (bytes16 e.flags ++
    (bytes16 e.compression_method ++ (bytes16 e.mod_time ++ (bytes16 e.mod_date ++
    (bytes32 e.crc32 ++ (bytes32 e.data.length ++ bytes32 e.uncompressed_size))))))))
    (bytes16 e.extra.length ++ []) e.name.length 26 (by simp [bytes16, bytes32])
  simp only [List.append_assoc] at h
  rw [h]
  omega

theorem decodeHeader_extra_field_length (e : ZipEntry) (hb : e.extra.length < 2 ^ 16) :
    (decodeHeader e.headerBytes).extra_field_length = e.extra.length := by
  show le16 e.headerBytes 28 = _
  rw [headerBytes_eq]
  have h := le16_bytes16 (bytes32 0x04034b50 ++ (bytes16 e.version_needed ++ (bytes16 e.flags ++
    (bytes16 e.compression_method ++ (bytes16 e.mod_time ++ (bytes16 e.mod_date ++
    (bytes32 e.crc32 ++ (bytes32 e.data.length ++ (bytes32 e.uncompressed_size ++
    bytes16 e.name.length)))))))))
    [] e.extra.length 28 (by simp [bytes16, bytes32])
  simp only [List.append_assoc] at h
  rw [h]
  omega

/-- Reading exactly the bytes that lie at the current position. -/
theorem read_of_drop (data : List Nat) (pos : Nat) (a b : List Nat)
    (h : data.drop pos = a ++ b) :
    QFile.read { data := data, pos := pos } a.length
        = (a, { data := data, pos := pos + a.length }) ∧
      data.drop (pos + a.length) = b := by
  constructor
  · simp [QFile.read, h]
  · rw [← List.drop_drop, h, List.drop_left]
theorem drop_of_drop (data : List Nat) (pos : Nat) (a b : List Nat)
    (h : data.drop pos = a ++ b) : data.drop (pos + a.length) = b :=
  (read_of_drop data pos a b h).2

/-- One iteration of the loop on a well-formed entry lying at the current position. -/
theorem zipLoop_entry (f : List Nat → String) (fuel : Nat) (data : List Nat) (pos : Nat)
    (e : ZipEntry) (rest : List Nat) (hwf : e.WellFormed)
    (hd : data.drop pos = e.encode ++ rest) :
    zipLoop f (fuel + 1) { data := data, pos := pos } =
      if e.Matches f then some ([pos], .matched e.data e.uncompressed_size)
      else (zipLoop f fuel { data := data, pos := pos + e.size }).map
        (fun r => (pos :: r.1, r.2)) := by
  obtain ⟨h1, h2, h3, h4, h5⟩ := hwf
  have hlen : ¬ data.length ≤ pos := by
    have := congrArg List.length hd
    simp [encode_length, ZipEntry.size, headerSize] at this
    omega
  have hd1 : data.drop pos = e.headerBytes ++ (e.name ++ ((e.extra ++ e.data) ++ rest)) := by
    simp [hd, ZipEntry.encode, List.append_assoc]
  obtain ⟨r1, d1⟩ := read_of_drop data pos _ _ hd1
  obtain ⟨r2, d2⟩ := read_of_drop data _ _ _ d1
  rw [List.append_assoc] at d2
  have d3 := drop_of_drop data _ _ _ d2
  obtain ⟨r4, _⟩ := read_of_drop data _ _ _ d3
  rw [headerBytes_length] at r1 r2 d2 d3 r4
  simp only [zipLoop, QFile.atEnd, hlen, decide_False, headerSize, r1, headerBytes_length,
    decodeHeader_signature, decodeHeader_file_name_length e h3, r2,
    decodeHeader_extra_field_length e h4, decodeHeader_compression_method e h1,
    decodeHeader_compressed_size e h5, decodeHeader_uncompressed_size e h2, QFile.seek, r4]
  simp [ZipEntry.Matches, ZipEntry.size, headerSize, Nat.add_assoc]

/-- An iteration that starts at the end of the data leaves the loop. -/
theorem zipLoop_atEnd (f : List Nat → String) (fuel : Nat) (data : List Nat) (pos : Nat)
    (h : data.length ≤ pos) :
    zipLoop f (fuel + 1) { data := data, pos := pos } = some ([], .atEnd) := by
  simp [zipLoop, QFile.atEnd, h]

/-- An iteration that reads a complete header with a wrong signature leaves the loop
there. -/
theorem zipLoop_invalidSignature (f : List Nat → String) (fuel : Nat) (data : List Nat)
    (pos : Nat) (tail : List Nat) (hd : data.drop pos = tail) (hlen : 30 ≤ tail.length)
    (hsig : le32 tail 0 ≠ 0x04034b50) :
    zipLoop f (fuel + 1) { data := data, pos := pos } = some ([pos], .invalidSignature) := by
  have hpos : ¬ data.length ≤ pos := by
    have := congrArg List.length hd
    simp at this
    omega
  have hsig2 : (decodeHeader (tail.take 30)).signature = le32 tail 0 := by
    show le32 (tail.take 30) 0 = le32 tail 0
    simp [le32, le16, List.getD_eq_getElem?_getD, List.getElem?_take]
  simp only [zipLoop, QFile.atEnd, hpos, decide_False, headerSize, QFile.read, hd]
  simp [hsig2, hsig, hlen]

theorem length_le_encodeArchive (es : List ZipEntry) :
    es.length ≤ (encodeArchive es).length := by
  induction es with
  | nil => simp
  | cons e es ih =>
    simp [encodeArchive, encode_length, ZipEntry.size, headerSize]
    omega

/-- The loop walks over a run of well-formed entries that fail the test of line 256,
reading one header per entry at the entry's offset. -/
theorem zipLoop_skip (f : List Nat → String) (pre : List ZipEntry) :
    ∀ (k : Nat) (data : List Nat) (pos : Nat) (tail : List Nat),
      (∀ e ∈ pre, e.WellFormed ∧ ¬ e.Matches f) →
      data.drop pos = encodeArchive pre ++ tail →
      zipLoop f (pre.length + k) { data := data, pos := pos } =
        (zipLoop f k { data := data, pos := pos + (encodeArchive pre).length }).map
          (fun r => (entryOffsets pos pre ++ r.1, r.2)) := by
  induction pre with
  | nil =>
    intro k data pos tail _ _
    simp [encodeArchive, entryOffsets]
  | cons e es ih =>
    intro k data pos tail hpre hd
    have he := hpre e (List.mem_cons_self _ _)
    have hd1 : data.drop pos = e.encode ++ (encodeArchive es ++ tail) := by
      simp [hd, encodeArchive, List.append_assoc]
    have hd2 := drop_of_drop data pos _ _ hd1
    rw [encode_length] at hd2
    have hfuel : (e :: es).length + k = (es.length + k) + 1 := by
      simp; omega
    rw [hfuel, zipLoop_entry f _ data pos e _ he.1 hd1, if_neg he.2,
      ih k data (pos + e.size) tail (fun x hx => hpre x (List.mem_cons_of_mem _ hx)) hd2]
    simp [Option.map_map, entryOffsets, encodeArchive, encode_length, Nat.add_assoc,
      Function.comp_def]
theorem encodeArchive_append (xs ys : List ZipEntry) :
    encodeArchive (xs ++ ys) = encodeArchive xs ++ encodeArchive ys := by
  induction xs with
  | nil => rfl
  | cons x xs ih => simp [encodeArchive, ih]

theorem entryOffsets_append (start : Nat) (xs ys : List ZipEntry) :
    entryOffsets start (xs ++ ys) =
      entryOffsets start xs ++ entryOffsets (start + (encodeArchive xs).length) ys := by
  induction xs generalizing start with
  | nil => simp [entryOffsets, encodeArchive]
  | cons x xs ih => simp [entryOffsets, encodeArchive, ih, encode_length, Nat.add_assoc]

/-- The whole loop on an archive whose first matching entry is `e`. -/
theorem zipLoop_found (f : List Nat → String) (pre : List ZipEntry) (e : ZipEntry)
    (tail : List Nat) (hpre : ∀ x ∈ pre, x.WellFormed ∧ ¬ x.Matches f)
    (hwf : e.WellFormed) (hm : e.Matches f) :
    zipLoop f ((encodeArchive pre ++ (e.encode ++ tail)).length + 1)
        { data := encodeArchive pre ++ (e.encode ++ tail), pos := 0 } =
      some (entryOffsets 0 (pre ++ [e]), .matched e.data e.uncompressed_size) := by
  have hle := length_le_encodeArchive pre
  have hfuel : (encodeArchive pre ++ (e.encode ++ tail)).length + 1 =
      pre.length + (((encodeArchive pre ++ (e.encode ++ tail)).length - pre.length) + 1) := by
    simp only [List.length_append]
    omega
  rw [hfuel, zipLoop_skip f pre _ _ 0 (e.encode ++ tail) hpre (by simp),
    zipLoop_entry f _ _ _ e tail hwf (by simp), if_pos hm]
  simp [entryOffsets_append, entryOffsets]

/-- The whole loop on an archive none of whose entries matches. -/
theorem zipLoop_exhausted (f : List Nat → String) (es : List ZipEntry)
    (hes : ∀ x ∈ es, x.WellFormed ∧ ¬ x.Matches f) :
    zipLoop f ((encodeArchive es).length + 1) { data := encodeArchive es, pos := 0 } =
      some (entryOffsets 0 es, .atEnd) := by
  have hle := length_le_encodeArchive es
  have hfuel : (encodeArchive es).length + 1 =
      es.length + (((encodeArchive es).length - es.length) + 1) := by omega
  rw [hfuel, zipLoop_skip f es _ _ 0 [] hes (by simp), zipLoop_atEnd f _ _ _ (by simp)]
  simp

/-- The whole loop on an archive in which a run of non-matching entries is followed
by a complete header with a wrong signature. -/
theorem zipLoop_corrupt (f : List Nat → String) (pre : List ZipEntry) (tail : List Nat)
    (hpre : ∀ x ∈ pre, x.WellFormed ∧ ¬ x.Matches f) (hlen : 30 ≤ tail.length)
    (hsig : le32 tail 0 ≠ 0x04034b50) :
    zipLoop f ((encodeArchive pre ++ tail).length + 1)
        { data := encodeArchive pre ++ tail, pos := 0 } =
      some (entryOffsets 0 pre ++ [(encodeArchive pre).length], .invalidSignature) := by
  have hle := length_le_encodeArchive pre
  have hfuel : (encodeArchive pre ++ tail).length + 1 =
      pre.length + (((encodeArchive pre ++ tail).length - pre.length) + 1) := by
    simp only [List.length_append]
    omega
  rw [hfuel, zipLoop_skip f pre _ _ 0 tail hpre (by simp),
    zipLoop_invalidSignature f _ _ _ tail (by simp) hlen hsig]
  simp

theorem extractAndReplace_fields (env : ZipEnv) (renv : ReplaceEnv) (fs : FileSystem)
    (headers c : List Nat) (n : Nat) :
    (extractAndReplace env renv fs headers c n).headersRead = headers ∧
      (extractAndReplace env renv fs headers c n).stream = some (c, n) ∧
      (env.inflateInit2Ok = true →
        (extractAndReplace env renv fs headers c n).inflateCalled = true) ∧
      (∀ image, env.inflateInit2Ok = true → env.inflate c n = some image →
        env.outOpenOk = true →
        (extractAndReplace env renv fs headers c n).replaced =
          some (replace_self renv (fs.set .tempExe (some image)) image)) := by
  cases h1 : env.inflateInit2Ok <;> cases h2 : env.inflate c n <;>
    cases h3 : env.outOpenOk <;> simp [extractAndReplace, h1, h2, h3]
/-- The function on an archive whose first matching entry is `e`. -/
theorem fileDownloaded_found (env : ZipEnv) (renv : ReplaceEnv) (fs : FileSystem)
    (pre : List ZipEntry) (e : ZipEntry) (post : List ZipEntry)
    (hpre : ∀ x ∈ pre, x.WellFormed ∧ ¬ x.Matches env.fromUtf8)
    (hwf : e.WellFormed) (hm : e.Matches env.fromUtf8) :
    fileDownloaded env renv fs (encodeArchive (pre ++ e :: post)) =
      some (extractAndReplace env renv fs (entryOffsets 0 (pre ++ [e])) e.data
        e.uncompressed_size) := by
  have harch : encodeArchive (pre ++ e :: post) =
      encodeArchive pre ++ (e.encode ++ encodeArchive post) := by
    simp [encodeArchive_append, encodeArchive]
  unfold fileDownloaded
  rw [harch, zipLoop_found env.fromUtf8 pre e _ hpre hwf hm]
  rfl

/-- The function on an archive none of whose entries matches. -/
theorem fileDownloaded_not_found (env : ZipEnv) (renv : ReplaceEnv) (fs : FileSystem)
    (es : List ZipEntry) (hes : ∀ x ∈ es, x.WellFormed ∧ ¬ x.Matches env.fromUtf8) :
    fileDownloaded env renv fs (encodeArchive es) =
      some { headersRead := entryOffsets 0 es, stream := none, inflateCalled := false,
             foundExe := false, replaced := none, fs := fs,
             log := ["Executable not found in ZIP archive."] } := by
  unfold fileDownloaded
  rw [zipLoop_exhausted env.fromUtf8 es hes]
  rfl

/-- C3: on an archive that is a concatenation of well-formed entries, the scan of
`fileDownloaded` extracts at most one entry, the first one whose name equals
`die.exe` and whose compression method is 8. The decoder input is exactly that
entry's data (the `compressed_size` bytes after its 30-byte header, name and extra
field), the output capacity is its `uncompressed_size`, the headers read are those at
the offsets of the entries up to and including the match (each earlier entry being
skipped by its header, name, extra and data lengths), nothing after the match is
read, and the decoded image is what `replace_self` receives. When no entry passes the
test, every header is read and nothing is extracted. -/
theorem fileDownloaded_extracts_first_match (env : ZipEnv) (renv : ReplaceEnv)
    (fs : FileSystem) (es : List ZipEntry) (hes : ∀ x ∈ es, x.WellFormed) :
    (∀ (pre : List ZipEntry) (e : ZipEntry) (post : List ZipEntry),
      es = pre ++ e :: post → (∀ x ∈ pre, ¬ x.Matches env.fromUtf8) →
      e.Matches env.fromUtf8 →
      ∃ out, fileDownloaded env renv fs (encodeArchive es) = some out ∧
        out = extractAndReplace env renv fs (entryOffsets 0 (pre ++ [e])) e.data
          e.uncompressed_size ∧
        out.headersRead = entryOffsets 0 (pre ++ [e]) ∧
        out.stream = some (e.data, e.uncompressed_size) ∧
        (env.inflateInit2Ok = true → out.inflateCalled = true) ∧
        (∀ image, env.inflateInit2Ok = true →
          env.inflate e.data e.uncompressed_size = some image → env.outOpenOk = true →
          out.replaced = some (replace_self renv (fs.set .tempExe (some image)) image))) ∧
    ((∀ x ∈ es, ¬ x.Matches env.fromUtf8) →
      ∃ out, fileDownloaded env renv fs (encodeArchive es) = some out ∧
        out.headersRead = entryOffsets 0 es ∧ out.stream = none ∧
        out.inflateCalled = false ∧ out.foundExe = false ∧ out.replaced = none) := by
  constructor
  · intro pre e post hsplit hpre hm
    subst hsplit
    have hwf : e.WellFormed := hes e (by simp)
    have hpre2 : ∀ x ∈ pre, x.WellFormed ∧ ¬ x.Matches env.fromUtf8 :=
      fun x hx => ⟨hes x (by simp [hx]), hpre x hx⟩
    have hf := extractAndReplace_fields env renv fs (entryOffsets 0 (pre ++ [e])) e.data
      e.uncompressed_size
    exact ⟨_, fileDownloaded_found env renv fs pre e post hpre2 hwf hm, rfl, hf.1, hf.2.1,
      hf.2.2.1, hf.2.2.2⟩
  · intro hno
    exact ⟨_, fileDownloaded_not_found env renv fs es (fun x hx => ⟨hes x hx, hno x hx⟩),
      rfl, rfl, rfl, rfl, rfl⟩

/-- Concrete instance: in an archive of four entries
the third is the first deflate `die.exe`; its two data bytes, at offset 118, go to the
decoder and on to `replace_self`. -/
theorem fileDownloaded_extracts_first_match_witness :
    ∃ out, fileDownloaded envZipOk envAllOk fsPlain
        (encodeArchive [otherEntry, storedTarget, deflateTarget, otherEntry]) = some out ∧
      out = extractAndReplace envZipOk envAllOk fsPlain
        (entryOffsets 0 ([otherEntry, storedTarget] ++ [deflateTarget])) deflateTarget.data
          deflateTarget.uncompressed_size ∧
      out.headersRead = entryOffsets 0 ([otherEntry, storedTarget] ++ [deflateTarget]) ∧
      out.stream = some (deflateTarget.data, deflateTarget.uncompressed_size) ∧
      (envZipOk.inflateInit2Ok = true → out.inflateCalled = true) ∧
      (∀ image, envZipOk.inflateInit2Ok = true →
        envZipOk.inflate deflateTarget.data deflateTarget.uncompressed_size = some image →
        envZipOk.outOpenOk = true →
        out.replaced = some (replace_self envAllOk (fsPlain.set .tempExe (some image)) image)) :=
  (fileDownloaded_extracts_first_match envZipOk envAllOk fsPlain
    [otherEntry, storedTarget, deflateTarget, otherEntry] (by decide)).1
    [otherEntry, storedTarget] deflateTarget [otherEntry] rfl (by decide) (by decide)

/-- C4, as stated, fails: a `die.exe` entry stored with method 0 does not end the
scan. The header of the entry after it (offset 40) is read and that entry, a deflate
`die.exe`, is extracted and installed; and when the stored entry stands alone the
outcome is the very outcome of an archive that has no `die.exe` at all. -/
theorem fileDownloaded_stored_target_not_an_error :
    (fileDownloaded envZipOk envAllOk fsPlain (encodeArchive [storedTarget, deflateTarget])).map
        (fun out => (out.headersRead, out.stream, out.foundExe, out.fs.currentExe))
      = some ([0, 40], some ([7, 7], 5), true, some [7, 7]) ∧
    fileDownloaded envZipOk envAllOk fsPlain (encodeArchive [storedTarget]) =
      fileDownloaded envZipOk envAllOk fsPlain (encodeArchive [otherEntry]) := by
  decide

/-- C4, amended: in an archive that is a concatenation of well-formed entries, an
entry named `die.exe` whose compression method is not 8 is handled like any entry
with another name. No decompression of it is attempted, it is skipped by its name,
extra and data lengths and the scan goes on: when no entry passes the test of line
256 every header is read and the outcome is the not-found outcome; when a later entry
passes it, that entry is extracted. -/
theorem fileDownloaded_other_method_skipped (env : ZipEnv) (renv : ReplaceEnv)
    (fs : FileSystem) (pre : List ZipEntry) (e : ZipEntry)
    (hpre : ∀ x ∈ pre, x.WellFormed ∧ ¬ x.Matches env.fromUtf8) (hwf : e.WellFormed)
    (hname : env.fromUtf8 e.name = exeName) (hmethod : e.compression_method ≠ 8) :
    (∀ post : List ZipEntry, (∀ x ∈ post, x.WellFormed ∧ ¬ x.Matches env.fromUtf8) →
      fileDownloaded env renv fs (encodeArchive (pre ++ e :: post)) =
        some { headersRead := entryOffsets 0 (pre ++ e :: post), stream := none,
               inflateCalled := false, foundExe := false, replaced := none, fs := fs,
               log := ["Executable not found in ZIP archive."] }) ∧
    (∀ (mid : List ZipEntry) (m : ZipEntry) (post : List ZipEntry),
      (∀ x ∈ mid, x.WellFormed ∧ ¬ x.Matches env.fromUtf8) → m.WellFormed →
      m.Matches env.fromUtf8 →
      fileDownloaded env renv fs (encodeArchive (pre ++ e :: (mid ++ m :: post))) =
        some (extractAndReplace env renv fs (entryOffsets 0 (pre ++ e :: (mid ++ [m]))) m.data
          m.uncompressed_size)) := by
  have he : e.WellFormed ∧ ¬ e.Matches env.fromUtf8 := ⟨hwf, fun h => hmethod h.2⟩
  constructor
  · intro post hpost
    apply fileDownloaded_not_found
    intro x hx
    simp only [List.mem_append, List.mem_cons] at hx
    rcases hx with hx | rfl | hx
    · exact hpre x hx
    · exact he
    · exact hpost x hx
  · intro mid m post hmid hm1 hm2
    have hsplit : pre ++ e :: (mid ++ m :: post) = (pre ++ e :: mid) ++ m :: post := by simp
    have hsplit2 : pre ++ e :: (mid ++ [m]) = (pre ++ e :: mid) ++ [m] := by simp
    rw [hsplit, hsplit2]
    apply fileDownloaded_found _ _ _ _ _ _ _ hm1 hm2
    intro x hx
    simp only [List.mem_append, List.mem_cons] at hx
    rcases hx with hx | rfl | hx
    · exact hpre x hx
    · exact he
    · exact hmid x hx

/-- Concrete instance: a stored `die.exe` between two
entries with another name. -/
theorem fileDownloaded_other_method_skipped_witness :
    fileDownloaded envZipOk envAllOk fsPlain
        (encodeArchive ([otherEntry] ++ storedTarget :: [otherEntry])) =
      some { headersRead := entryOffsets 0 ([otherEntry] ++ storedTarget :: [otherEntry]),
             stream := none, inflateCalled := false, foundExe := false, replaced := none,
             fs := fsPlain, log := ["Executable not found in ZIP archive."] } :=
  (fileDownloaded_other_method_skipped envZipOk envAllOk fsPlain [otherEntry] storedTarget
    (by decide) (by decide) (by decide) (by decide)).1 [otherEntry] (by decide)

/-- C9: wherever the scan reads a complete header whose signature differs from
`0x04034b50`, here after any run of well-formed entries that fail the test of line
256, the loop is left at that header: no further header is read, no `z_stream` is set
up, `inflate` is not called, `replace_self` is not invoked and the file system is
unchanged, whatever bytes follow. The same holds for a single iteration started at
any position of any data. -/
theorem fileDownloaded_invalid_signature (env : ZipEnv) (renv : ReplaceEnv)
    (fs : FileSystem) (pre : List ZipEntry) (tail : List Nat)
    (hpre : ∀ x ∈ pre, x.WellFormed ∧ ¬ x.Matches env.fromUtf8)
    (hlen : 30 ≤ tail.length) (hsig : le32 tail 0 ≠ 0x04034b50) :
    fileDownloaded env renv fs (encodeArchive pre ++ tail) =
        some { headersRead := entryOffsets 0 pre ++ [(encodeArchive pre).length],
               stream := none, inflateCalled := false, foundExe := false, replaced := none,
               fs := fs,
               log := ["Invalid ZIP signature.", "Executable not found in ZIP archive."] } ∧
      ∀ (fuel : Nat) (data : List Nat) (pos : Nat), data.drop pos = tail →
        zipLoop env.fromUtf8 (fuel + 1) { data := data, pos := pos } =
          some ([pos], .invalidSignature) := by
  constructor
  · unfold fileDownloaded
    rw [zipLoop_corrupt env.fromUtf8 pre tail hpre hlen hsig]
    rfl
  · intro fuel data pos hd
    exact zipLoop_invalidSignature env.fromUtf8 fuel data pos tail hd hlen hsig

/-- Concrete instance: the first header is corrupt and
a complete deflate `die.exe` entry follows it. -/
theorem fileDownloaded_invalid_signature_witness :
    fileDownloaded envZipOk envAllOk fsPlain (encodeArchive [] ++ corruptThenTarget) =
        some { headersRead := entryOffsets 0 [] ++ [(encodeArchive []).length],
               stream := none, inflateCalled := false, foundExe := false, replaced := none,
               fs := fsPlain,
               log := ["Invalid ZIP signature.", "Executable not found in ZIP archive."] } ∧
      ∀ (fuel : Nat) (data : List Nat) (pos : Nat), data.drop pos = corruptThenTarget →
        zipLoop envZipOk.fromUtf8 (fuel + 1) { data := data, pos := pos } =
          some ([pos], .invalidSignature) :=
  fileDownloaded_invalid_signature envZipOk envAllOk fsPlain [] corruptThenTarget
    (by decide) (by decide) (by decide)
/-- The fuel given to the loop always suffices: from any position whose distance to
the end of the data is below the fuel, the loop is left. -/
theorem zipLoop_isSome (f : List Nat → String) :
    ∀ (fuel : Nat) (data : List Nat) (pos : Nat), data.length - pos < fuel →
      (zipLoop f fuel { data := data, pos := pos }).isSome = true := by
  intro fuel
  induction fuel with
  | zero => intro data pos h; omega
  | succ n ih =>
    intro data pos h
    unfold zipLoop
    by_cases hend : QFile.atEnd { data := data, pos := pos } = true
    · simp [hend]
    · simp only [hend, Bool.false_eq_true, if_false]
      have hpos : pos < data.length := by
        simp [QFile.atEnd] at hend
        exact hend
      by_cases hshort : (QFile.read { data := data, pos := pos } headerSize).1.length ≠ headerSize
      · simp [hshort]
      · rw [if_neg hshort]
        split_ifs
        · rfl
        · rfl
        · rw [Option.isSome_map']
          apply ih
          simp only [ne_eq, not_not] at hshort
          simp only [QFile.seek, QFile.read] at hshort ⊢
          rw [hshort]
          simp only [headerSize]
          omega

/-- The scan of `fileDownloaded` returns on every archive content. -/
theorem fileDownloaded_isSome (env : ZipEnv) (renv : ReplaceEnv) (fs : FileSystem)
    (zipData : List Nat) : (fileDownloaded env renv fs zipData).isSome = true := by
  unfold fileDownloaded
  rw [Option.isSome_map']
  exact zipLoop_isSome env.fromUtf8 _ _ _ (by simp)

/-! ## Self-replacement: properties -/

/-- C2, as stated, fails: when the temp-to-live rename fails and the rollback rename
fails too, `replace_self` returns with no file at all at the live path (the original
sits at the backup path). -/
theorem replace_self_live_path_lost :
    let r := replace_self { envAllOk with replaceRenameOk := false, rollbackRenameOk := false }
      fsPlain [2, 3]
    ¬ (r.fs.currentExe = some [1] ∨ r.fs.currentExe = some [2, 3]) ∧
      r.fs.currentExe = none ∧ r.fs.backupExe = some [1] := by
  decide

/-- C2, amended: whenever the rollback rename succeeds if attempted, then for every
combination of the other outcomes the live path holds, when `replace_self` returns,
either the original executable or the complete new image. -/
theorem replace_self_live_path_kept (env : ReplaceEnv) (fs : FileSystem)
    (newImage original : List Nat) (hlive : fs.currentExe = some original)
    (hrollback : env.rollbackRenameOk = true) :
    (replace_self env fs newImage).fs.currentExe = some original ∨
      (replace_self env fs newImage).fs.currentExe = some newImage := by
  obtain ⟨c, b, t⟩ := fs
  obtain ⟨o, w, rt, rb, br, rr, rl, l, cl⟩ := env
  simp only at hlive hrollback
  subst hlive hrollback
  cases o
  · simp [replace_self]
  by_cases hw : w = (newImage.length : Int)
  swap
  · cases rt <;> simp [replace_self, hw, removeFile, FileSystem.get, FileSystem.set]
  subst hw
  cases b <;> cases rb <;> cases br <;> cases rr <;> cases l <;> cases rt <;>
    simp [replace_self, removeFile, renameFile, FileSystem.get, FileSystem.set]

/-- Concrete instance: the swap fails, the rollback works. -/
theorem replace_self_live_path_kept_witness :
    (replace_self { envAllOk with replaceRenameOk := false } fsPlain [2, 3]).fs.currentExe
        = some [1] ∨
      (replace_self { envAllOk with replaceRenameOk := false } fsPlain [2, 3]).fs.currentExe
        = some [2, 3] :=
  replace_self_live_path_kept { envAllOk with replaceRenameOk := false } fsPlain [2, 3] [1]
    rfl rfl

/-- C5, as stated, fails in its last part: a failed relaunch after a completed swap
and a failed backup rename (no swap) both return `false`, so the caller cannot tell
them apart, although the live path holds the new image in the first run and the
original in the second. -/
theorem replace_self_relaunch_failure_not_distinguished :
    let swapped := replace_self { envAllOk with launchOk := false } fsPlain [2, 3]
    let untouched := replace_self { envAllOk with backupRenameOk := false } fsPlain [2, 3]
    swapped.fs.currentExe = some [2, 3] ∧ untouched.fs.currentExe = some [1] ∧
      ¬ (swapped.ok ≠ untouched.ok) := by
  decide

/-- C5, amended: if the relaunch fails after the temp-to-live rename has succeeded,
`replace_self` does not roll back (new image at the live path, old one at the backup
path, nothing launched, no cleanup, no quit) and returns `false`; `false` is also what
it returns in every run in which nothing was launched, so the return value is the
same as for a failure before the swap. -/
theorem replace_self_relaunch_failure (env : ReplaceEnv) (fs : FileSystem)
    (newImage original : List Nat) (hlive : fs.currentExe = some original)
    (hopen : env.tempOpenOk = true) (hwrite : env.bytesWritten = (newImage.length : Int))
    (hstale : fs.backupExe ≠ none → env.removeBackupOk = true)
    (hbackup : env.backupRenameOk = true) (hswap : env.replaceRenameOk = true)
    (hlaunch : env.launchOk = false) :
    (replace_self env fs newImage).ok = false ∧
      (replace_self env fs newImage).fs.currentExe = some newImage ∧
      (replace_self env fs newImage).fs.backupExe = some original ∧
      (replace_self env fs newImage).launched = false ∧
      (replace_self env fs newImage).cleanupStarted = false ∧
      (replace_self env fs newImage).quitCalled = false ∧
      ∀ env2 : ReplaceEnv, (replace_self env2 fs newImage).launched = false →
        (replace_self env2 fs newImage).ok = false := by
  obtain ⟨c, b, t⟩ := fs
  obtain ⟨o, w, rt, rb, br, rr, rl, l, cl⟩ := env
  simp only at hlive hopen hwrite hstale hbackup hswap hlaunch
  subst hlive hopen hwrite hbackup hswap hlaunch
  refine ⟨?_, ?_, ?_, ?_, ?_, ?_, ?_⟩
  iterate 6
    cases b
    · simp [replace_self, removeFile, renameFile, FileSystem.get, FileSystem.set]
    · simp [hstale, replace_self, removeFile, renameFile, FileSystem.get, FileSystem.set]
  intro env2
  obtain ⟨o, w, rt, rb, br, rr, rl, l, cl⟩ := env2
  cases o
  · simp [replace_self]
  by_cases hw : w = (newImage.length : Int)
  swap
  · simp [replace_self, hw]
  subst hw
  cases b <;> cases rb <;> cases br <;> cases rr <;> cases l <;>
    simp [replace_self, removeFile, renameFile, FileSystem.get, FileSystem.set]

/-- Concrete instance: every step succeeds except the relaunch. -/
theorem replace_self_relaunch_failure_witness :
    (replace_self { envAllOk with launchOk := false } fsPlain [2, 3]).ok = false ∧
      (replace_self { envAllOk with launchOk := false } fsPlain [2, 3]).fs.currentExe
        = some [2, 3] ∧
      (replace_self { envAllOk with launchOk := false } fsPlain [2, 3]).fs.backupExe
        = some [1] ∧
      (replace_self { envAllOk with launchOk := false } fsPlain [2, 3]).launched = false ∧
      (replace_self { envAllOk with launchOk := false } fsPlain [2, 3]).cleanupStarted = false ∧
      (replace_self { envAllOk with launchOk := false } fsPlain [2, 3]).quitCalled = false ∧
      ∀ env2 : ReplaceEnv, (replace_self env2 fsPlain [2, 3]).launched = false →
        (replace_self env2 fsPlain [2, 3]).ok = false :=
  replace_self_relaunch_failure { envAllOk with launchOk := false } fsPlain [2, 3] [1]
    rfl rfl rfl (fun h => absurd rfl h) rfl rfl rfl

/-- C6, as stated, fails: when the temp-to-live rename fails and neither the rollback
rename nor the removal of the temporary file succeeds, nothing is at the live path,
the original is still at the backup path and the new image still at the temp path. -/
theorem replace_self_rollback_not_guaranteed :
    let r := replace_self
      { envAllOk with replaceRenameOk := false, rollbackRenameOk := false,
                      removeTempOk := false } fsPlain [2, 3]
    r.ok = false ∧
      ¬ (r.fs.currentExe = some [1] ∧ r.fs.backupExe = none ∧ r.fs.tempExe = none) ∧
      r.fs.currentExe = none ∧ r.fs.backupExe = some [1] ∧ r.fs.tempExe = some [2, 3] := by
  decide

/-- C6, amended: if the rename of the temporary file to the live path fails after the
live executable was renamed to the backup path, and the rollback rename and the
removal of the temporary file succeed, then on return the original executable is
back at the live path, no file is at the backup path, none at the temporary path,
and the result is failure. -/
theorem replace_self_rollback (env : ReplaceEnv) (fs : FileSystem)
    (newImage original : List Nat) (hlive : fs.currentExe = some original)
    (hopen : env.tempOpenOk = true) (hwrite : env.bytesWritten = (newImage.length : Int))
    (hstale : fs.backupExe ≠ none → env.removeBackupOk = true)
    (hbackup : env.backupRenameOk = true) (hswap : env.replaceRenameOk = false)
    (hrollback : env.rollbackRenameOk = true) (hremove : env.removeTempOk = true) :
    (replace_self env fs newImage).ok = false ∧
      (replace_self env fs newImage).fs.currentExe = some original ∧
      (replace_self env fs newImage).fs.backupExe = none ∧
      (replace_self env fs newImage).fs.tempExe = none ∧
      (replace_self env fs newImage).launched = false := by
  obtain ⟨c, b, t⟩ := fs
  obtain ⟨o, w, rt, rb, br, rr, rl, l, cl⟩ := env
  simp only at hlive hopen hwrite hstale hbackup hswap hrollback hremove
  subst hlive hopen hwrite hbackup hswap hrollback hremove
  cases b
  · simp [replace_self, removeFile, renameFile, FileSystem.get, FileSystem.set]
  · simp [hstale, replace_self, removeFile, renameFile, FileSystem.get, FileSystem.set]

/-- Concrete instance, on a file system with a stale backup. -/
theorem replace_self_rollback_witness :
    (replace_self { envAllOk with replaceRenameOk := false }
        { fsPlain with backupExe := some [9] } [2, 3]).ok = false ∧
      (replace_self { envAllOk with replaceRenameOk := false }
        { fsPlain with backupExe := some [9] } [2, 3]).fs.currentExe = some [1] ∧
      (replace_self { envAllOk with replaceRenameOk := false }
        { fsPlain with backupExe := some [9] } [2, 3]).fs.backupExe = none ∧
      (replace_self { envAllOk with replaceRenameOk := false }
        { fsPlain with backupExe := some [9] } [2, 3]).fs.tempExe = none ∧
      (replace_self { envAllOk with replaceRenameOk := false }
        { fsPlain with backupExe := some [9] } [2, 3]).launched = false :=
  replace_self_rollback { envAllOk with replaceRenameOk := false }
    { fsPlain with backupExe := some [9] } [2, 3] [1] rfl rfl rfl (fun _ => rfl) rfl rfl rfl rfl

/-! ## Progress: properties -/

/-- C10: the claim does not hold on the code. With `bytesReceived = bytesTotal =
100000000000000000`, a pair of `qint64` counts that satisfies `bytesTotal > 0` and
`0 <= bytesReceived <= bytesTotal`, the 64-bit product `bytesReceived * 100` wraps and
the value passed to the progress bar is `-84`, outside `0..100`. -/
theorem updateDownloadProgress_overflow :
    (0 : Int) < 100000000000000000 ∧ (100000000000000000 : Int) ≤ 2 ^ 63 - 1 ∧
      updateDownloadProgress 100000000000000000 100000000000000000 = some (-84) ∧
      ¬ ((0 : Int) ≤ -84 ∧ (-84 : Int) ≤ 100) := by
  decide

/-- As long as `bytesReceived * 100` fits in 64 bits, the value passed to the
progress bar is a percentage in `0..100`. -/
theorem updateDownloadProgress_in_range (bytesReceived bytesTotal : Int)
    (htotal : 0 < bytesTotal) (hlow : 0 ≤ bytesReceived) (hhigh : bytesReceived ≤ bytesTotal)
    (hfit : bytesReceived * 100 < 2 ^ 63) :
    ∃ p, updateDownloadProgress bytesReceived bytesTotal = some p ∧ 0 ≤ p ∧ p ≤ 100 := by
  have hw : wrapInt64 (bytesReceived * 100) = bytesReceived * 100 := by
    unfold wrapInt64
    norm_num at hfit ⊢
    omega
  have hq : Int.tdiv (bytesReceived * 100) bytesTotal = bytesReceived * 100 / bytesTotal :=
    Int.tdiv_eq_ediv (by omega) (by omega)
  have h0 : 0 ≤ bytesReceived * 100 / bytesTotal := Int.ediv_nonneg (by omega) (by omega)
  have h100 : bytesReceived * 100 / bytesTotal ≤ 100 :=
    Int.ediv_le_of_le_mul htotal (by omega)
  refine ⟨bytesReceived * 100 / bytesTotal, ?_, h0, h100⟩
  simp only [updateDownloadProgress, htotal, gt_iff_lt, if_true, progressValue, hw, hq]
  congr 1
  unfold wrapInt32
  norm_num
  omega

/-- Nothing is passed to the progress bar when `bytesTotal <= 0`. -/
theorem updateDownloadProgress_no_total (bytesReceived bytesTotal : Int)
    (htotal : bytesTotal ≤ 0) : updateDownloadProgress bytesReceived bytesTotal = none := by
  simp [updateDownloadProgress, not_lt.mpr htotal]

end XUpdate
